import Mathlib

/-!
Shallow embedding of the CHIP-8 interpreter and its time-travel debugger
(`src/chip8.rs`, `src/debugger.rs`).

Modelling conventions:
* `u8`/`u16`/`usize` values are `Nat`, with `% 256` / `% 65536` exactly where
  the Rust code performs wrapping arithmetic (release-mode semantics for the
  two arithmetically overflowing spots `v[x] * 0x5` and `i += v[x]`).
* Fixed arrays (`memory`, `display`, `v`, `keys`) are functions from the index
  to the stored value; in-place writes become the functional update `upd`.
* Rust panics (unknown opcode, `unwrap` on an empty stack pop, out-of-bounds
  array indexing) are `none` in an `Option` result.
* `Instant`/`Duration`/`f32` scheduling arithmetic is modelled over exact
  rationals `ℚ`; only the field-for-field state plumbing of these values is
  relevant to the claims, never float rounding.
* `Vec` push/pop (call stack, debugger snapshot history) is a Lean `List`
  with push = cons and pop = head extraction, the same LIFO discipline.
* The `rand::random::<u8>()` collaborator is an explicit parameter `r`,
  used as the random byte `r % 256`.
-/

namespace Flake

/-- Functional array update: models `arr[i] = v` on a Rust array. -/
def upd (f : Nat → Nat) (i v : Nat) : Nat → Nat := fun j => if j = i then v else f j

/-- Interpreter compatibility modes (`enum Modes`); only `Chip8` exists. -/
inductive Modes where
  | Chip8
deriving DecidableEq

/-- Decoded instruction variants (`enum OpCodes`). Operand fields keep the
source order; `usize`/`u8`/`u16` operands are all `Nat`. -/
inductive OpCodes where
  | Unkn (w : Nat)
  | Cls
  | Ret
  | Jmp (nnn : Nat)
  | Call (nnn : Nat)
  | SeVxNn (x nn : Nat)
  | SneVxNn (x nn : Nat)
  | SeVxVy (x y : Nat)
  | LdVxNn (x nn : Nat)
  | AddVxNn (x nn : Nat)
  | LdVxVy (x y : Nat)
  | OrVxVy (x y : Nat)
  | AndVxVy (x y : Nat)
  | XorVxVy (x y : Nat)
  | AddVxVy (x y : Nat)
  | SubVxVy (x y : Nat)
  | ShrVxVy (x y : Nat)
  | SubnVxVy (x y : Nat)
  | ShlVxVy (x y : Nat)
  | SneVxVy (x y : Nat)
  | LdINn (nnn : Nat)
  | JmpV0Nnn (nnn : Nat)
  | RndVxNn (x nn : Nat)
  | DrawVxVyN (x y n : Nat)
  | SkpVx (x : Nat)
  | SknpVx (x : Nat)
  | LdVxDt (x : Nat)
  | LdVxK (x : Nat)
  | LdDtVx (x : Nat)
  | LdStVx (x : Nat)
  | AddIVx (x : Nat)
  | LdFVx (x : Nat)
  | LdBVx (x : Nat)
  | LdIVx (x : Nat)
  | LdVxI (x : Nat)
deriving DecidableEq

/-- The machine state (`struct Chip8`), every field of the source struct. -/
@[ext]
structure Chip8 where
  memory : Nat → Nat
  display : Nat → Nat
  v : Nat → Nat
  pc : Nat
  st : Nat
  dt : Nat
  i : Nat
  stack : List Nat
  mode : Modes
  keys : Nat → Bool
  execution_speed : ℚ
  next_tick : ℚ
  next_timers_tick : ℚ
  sound_playing : Bool

/-- Decode (`impl TryFrom<u16> for OpCodes`): the source wraps the entire
nested match in `Ok`, so the `Err` branch of the `Result` is structural only. -/
def tryFrom (w : Nat) : Except String OpCodes :=
  let nnn := Nat.land w 0x0FFF
  let byte1 := Nat.land w 0x00FF
  let nib1 := Nat.land w 0x0F00 / 256
  let nib2 := Nat.land w 0x00F0 / 16
  let nib3 := Nat.land w 0x000F
  Except.ok (match Nat.land w 0xF000 with
    | 0x0000 =>
      match w with
      | 0x00EE => OpCodes.Ret
      | 0x00E0 => OpCodes.Cls
      | _ => OpCodes.Unkn w
    | 0x1000 => OpCodes.Jmp nnn
    | 0x2000 => OpCodes.Call nnn
    | 0x3000 => OpCodes.SeVxNn nib1 byte1
    | 0x4000 => OpCodes.SneVxNn nib1 byte1
    | 0x5000 => OpCodes.SeVxVy nib1 nib2
    | 0x6000 => OpCodes.LdVxNn nib1 byte1
    | 0x7000 => OpCodes.AddVxNn nib1 byte1
    | 0x8000 =>
      match Nat.land w 0xF00F with
      | 0x8000 => OpCodes.LdVxVy nib1 nib2
      | 0x8001 => OpCodes.OrVxVy nib1 nib2
      | 0x8002 => OpCodes.AndVxVy nib1 nib2
      | 0x8003 => OpCodes.XorVxVy nib1 nib2
      | 0x8004 => OpCodes.AddVxVy nib1 nib2
      | 0x8005 => OpCodes.SubVxVy nib1 nib2
      | 0x8006 => OpCodes.ShrVxVy nib1 nib2
      | 0x8007 => OpCodes.SubnVxVy nib1 nib2
      | 0x800E => OpCodes.ShlVxVy nib1 nib2
      | _ => OpCodes.Unkn w
    | 0x9000 => OpCodes.SneVxVy nib1 nib2
    | 0xA000 => OpCodes.LdINn nnn
    | 0xB000 => OpCodes.JmpV0Nnn nnn
    | 0xC000 => OpCodes.RndVxNn nib1 byte1
    | 0xD000 => OpCodes.DrawVxVyN nib1 nib2 nib3
    | 0xE000 =>
      match Nat.land w 0xF0FF with
      | 0xE09E => OpCodes.SkpVx nib1
      | 0xE0A1 => OpCodes.SknpVx nib1
      | _ => OpCodes.Unkn w
    | 0xF000 =>
      match Nat.land w 0xF0FF with
      | 0xF015 => OpCodes.LdDtVx nib1
      | 0xF055 => OpCodes.LdIVx nib1
      | 0xF065 => OpCodes.LdVxI nib1
      | 0xF007 => OpCodes.LdVxDt nib1
      | 0xF00A => OpCodes.LdVxK nib1
      | 0xF018 => OpCodes.LdStVx nib1
      | 0xF029 => OpCodes.LdFVx nib1
      | 0xF033 => OpCodes.LdBVx nib1
      | 0xF01E => OpCodes.AddIVx nib1
      | _ => OpCodes.Unkn w
    | _ => OpCodes.Unkn w)

/-- Checked read of `memory[a]`: a Rust index out of `[0, 4096)` panics. -/
def memRead (c : Chip8) (a : Nat) : Option Nat :=
  if a < 4096 then some (c.memory a) else none

/-- Checked write of `memory[a] = val`. -/
def memWrite (c : Chip8) (a val : Nat) : Option Chip8 :=
  if a < 4096 then some { c with memory := upd c.memory a val } else none

/-- Checked read of `keys[k]` (16 entries). -/
def keysRead (c : Chip8) (k : Nat) : Option Bool :=
  if k < 16 then some (c.keys k) else none

/-- The body of the inner `for dx` loop of `DrawVxVyN`: one sprite column at
`dx`, on the display row `row`, with sprite byte `line`. -/
def drawColBody (x row line dx : Nat) (c : Chip8) : Chip8 :=
  let loc := x + dx + row * 64
  let cur := c.display loc
  let d1 := if (128 >>> dx) &&& line ≠ 0
            then upd c.display loc (cur ^^^ 255) else c.display
  let v1 := if cur = 255 ∧ d1 loc = 0 then upd c.v 15 1 else c.v
  { c with display := d1, v := v1 }

/-- The inner `for dx in 0..8` loop of `DrawVxVyN`, with its `break` when
`x + dx ≥ 64` (clipping at the right edge). `fuel` counts the iterations
left, so the loop is `drawColsAux x row line 0 8`. -/
def drawColsAux (x row line : Nat) : Nat → Nat → Chip8 → Chip8
  | _, 0, c => c
  | dx, fuel + 1, c =>
    if 64 ≤ x + dx then c
    else drawColsAux x row line (dx + 1) fuel (drawColBody x row line dx c)

/-- The outer `for dy in 0..n` loop of `DrawVxVyN`, with its `break` when
`y + dy ≥ 32` (clipping at the bottom edge) and the checked sprite read
`memory[i + dy]`. -/
def drawRowsAux (x y : Nat) : Nat → Nat → Chip8 → Option Chip8
  | _, 0, c => some c
  | dy, fuel + 1, c =>
    if 32 ≤ y + dy then some c
    else
      match memRead c (c.i + dy) with
      | none => none
      | some line => drawRowsAux x y (dy + 1) fuel (drawColsAux x (y + dy) line 0 8 c)

/-- The `for dx in 0..x+1` loop of `LdIVx` (store `v[0..=x]` at `memory[i..]`). -/
def stRegsAux : Nat → Nat → Chip8 → Option Chip8
  | _, 0, c => some c
  | dx, fuel + 1, c =>
    match memWrite c (c.i + dx) (c.v dx) with
    | none => none
    | some c1 => stRegsAux (dx + 1) fuel c1

/-- The `for dx in 0..x+1` loop of `LdVxI` (load `memory[i..]` into `v[0..=x]`). -/
def ldRegsAux : Nat → Nat → Chip8 → Option Chip8
  | _, 0, c => some c
  | dx, fuel + 1, c =>
    match memRead c (c.i + dx) with
    | none => none
    | some val => ldRegsAux (dx + 1) fuel { c with v := upd c.v dx val }

/-- `keys.iter().position(|&b| b)` over the 16 keys, scanning upward from
index `k` with `fuel` entries left. -/
def firstKeyAux (keys : Nat → Bool) : Nat → Nat → Option Nat
  | _, 0 => none
  | k, fuel + 1 => if keys k then some k else firstKeyAux keys (k + 1) fuel

/-- Lowest-indexed pressed key, if any (`keys.iter().position(|&b| b)`). -/
def firstKey (keys : Nat → Bool) : Option Nat := firstKeyAux keys 0 16

/-- Execute one decoded opcode (the `match op` block of `Chip8::tick`), on a
state whose `pc` has already been incremented past the instruction.
`r` stands in for the external random byte source. `none` is a panic. -/
def execOp (r : Nat) (op : OpCodes) (c : Chip8) : Option Chip8 :=
  match op with
  | .Unkn _ => none
  | .Cls => some { c with display := fun _ => 0 }
  | .LdINn n => some { c with i := n }
  | .RndVxNn x n => some { c with v := upd c.v x (Nat.land n (r % 256)) }
  | .LdVxNn x n => some { c with v := upd c.v x n }
  | .DrawVxVyN vx vy n =>
    let c0 := { c with v := upd c.v 15 0 }
    drawRowsAux (c0.v vx % 64) (c0.v vy % 32) 0 n c0
  | .SkpVx x =>
    match keysRead c (c.v x) with
    | none => none
    | some b => some (if b then { c with pc := c.pc + 2 } else c)
  | .SknpVx x =>
    match keysRead c (c.v x) with
    | none => none
    | some b => some (if b then c else { c with pc := c.pc + 2 })
  | .AddVxNn x n => some { c with v := upd c.v x ((c.v x + n) % 256) }
  | .Jmp n => some { c with pc := n }
  | .JmpV0Nnn n => some { c with pc := n + c.v 0 }
  | .SeVxNn x n => some (if c.v x = n then { c with pc := c.pc + 2 } else c)
  | .SneVxNn x n => some (if c.v x ≠ n then { c with pc := c.pc + 2 } else c)
  | .SeVxVy x y => some (if c.v x = c.v y then { c with pc := c.pc + 2 } else c)
  | .SneVxVy x y => some (if c.v x ≠ c.v y then { c with pc := c.pc + 2 } else c)
  | .Call n => some { c with stack := c.pc :: c.stack, pc := n }
  | .Ret =>
    match c.stack with
    | [] => none
    | p :: rest => some { c with pc := p, stack := rest }
  | .LdVxVy x y => some { c with v := upd c.v x (c.v y) }
  | .OrVxVy x y => some { c with v := upd c.v x (Nat.lor (c.v x) (c.v y)) }
  | .AndVxVy x y => some { c with v := upd c.v x (Nat.land (c.v x) (c.v y)) }
  | .XorVxVy x y => some { c with v := upd c.v x (Nat.xor (c.v x) (c.v y)) }
  | .AddVxVy x y =>
    some { c with v := upd (upd c.v x ((c.v x + c.v y) % 256)) 15
                        (if 256 ≤ c.v x + c.v y then 1 else 0) }
  | .SubVxVy x y =>
    some { c with v := upd (upd c.v x ((c.v x + 256 - c.v y) % 256)) 15
                        (if c.v x < c.v y then 1 else 0) }
  | .SubnVxVy x y =>
    some { c with v := upd (upd c.v x ((c.v y + 256 - c.v x) % 256)) 15
                        (if c.v y < c.v x then 1 else 0) }
  | .ShrVxVy x y =>
    let v1 := if c.mode = Modes.Chip8 then upd c.v x (c.v y) else c.v
    let v2 := upd v1 15 (Nat.land (v1 x) 1)
    some { c with v := upd v2 x (v2 x / 2) }
  | .ShlVxVy x y =>
    let v1 := if c.mode = Modes.Chip8 then upd c.v x (c.v y) else c.v
    let v2 := upd v1 15 (v1 x / 128)
    some { c with v := upd v2 x (v2 x * 2 % 256) }
  | .LdIVx x => stRegsAux 0 (x + 1) c
  | .LdVxI x => ldRegsAux 0 (x + 1) c
  | .LdVxK x =>
    match firstKey c.keys with
    | some key => some { c with v := upd c.v x key }
    | none => some { c with pc := c.pc - 2 }
  | .LdStVx x => some { c with st := c.v x }
  | .LdDtVx x => some { c with dt := c.v x }
  | .LdVxDt x => some { c with v := upd c.v x c.dt }
  | .LdFVx x => some { c with i := c.v x * 5 % 256 }
  | .AddIVx x => some { c with i := (c.i + c.v x) % 65536 }
  | .LdBVx x =>
    match memWrite c c.i (c.v x / 100) with
    | none => none
    | some c1 =>
      match memWrite c1 (c1.i + 1) (c1.v x / 10 % 10) with
      | none => none
      | some c2 => memWrite c2 (c2.i + 2) (c2.v x % 10)

/-- Fetch the big-endian instruction word `memory[pc..pc+2]`. -/
def fetchWord (c : Chip8) : Option Nat :=
  match memRead c c.pc, memRead c (c.pc + 1) with
  | some hi, some lo => some (hi * 256 + lo)
  | _, _ => none

/-- One instruction cycle (`Chip8::tick`): fetch, `pc += 2`, decode, execute. -/
def tick (r : Nat) (c : Chip8) : Option Chip8 :=
  match fetchWord c with
  | none => none
  | some w =>
    match tryFrom w with
    | .error _ => none
    | .ok op => execOp r op { c with pc := c.pc + 2 }

/-- One debugger scheduling unit (`Chip8::step_debug`): either a 60 Hz timer
decrement or one instruction `tick`, then the sound start/stop edge. -/
def step_debug (r : Nat) (c : Chip8) : Option Chip8 :=
  let step1 : Option Chip8 :=
    if c.next_timers_tick < c.next_tick then
      some { c with
        st := if 0 < c.st then c.st - 1 else c.st,
        dt := if 0 < c.dt then c.dt - 1 else c.dt,
        next_timers_tick := c.next_timers_tick + 1 / (60 * c.execution_speed) }
    else
      match tick r c with
      | none => none
      | some c1 => some { c1 with next_tick := c1.next_tick + 1 / (700 * c1.execution_speed) }
  match step1 with
  | none => none
  | some c1 =>
    if 0 < c1.st ∧ c1.sound_playing = false then some { c1 with sound_playing := true }
    else if c1.st = 0 ∧ c1.sound_playing = true then some { c1 with sound_playing := false }
    else some c1

/-- The debugger-owned state the claims need: the live machine and the
snapshot history (`Debugger::states`), most recent snapshot first. -/
@[ext]
structure Stage where
  chip : Chip8
  states : List Chip8

/-- The paused-mode step command (`KEY_STEP_DEBUG` branch of `update`):
push a snapshot of the live machine, then advance it one scheduling unit. -/
def stepCommand (r : Nat) (st : Stage) : Option Stage :=
  match step_debug r st.chip with
  | none => none
  | some c1 => some { chip := c1, states := st.chip :: st.states }

/-- The undo command (`KEY_UNDO_STEP_DEBUG` branch of `update`): pop the most
recent snapshot, if any, into the live machine; otherwise do nothing. -/
def undoCommand (st : Stage) : Stage :=
  match st.states with
  | [] => st
  | prev :: rest => { chip := prev, states := rest }

/-- `N` step commands in sequence, one random byte per step. -/
def stepN : List Nat → Stage → Option Stage
  | [], st => some st
  | r :: rs, st =>
    match stepCommand r st with
    | none => none
    | some st1 => stepN rs st1

/-- `n` undo commands in sequence. -/
def undoN : Nat → Stage → Stage
  | 0, st => st
  | n + 1, st => undoCommand (undoN n st)

/-- The built-in hexadecimal font table installed by `Chip8::load`. -/
def fontData : List Nat :=
  [0xF0, 0x90, 0x90, 0x90, 0xF0,
   0x20, 0x60, 0x20, 0x20, 0x70,
   0xF0, 0x10, 0xF0, 0x80, 0xF0,
   0xF0, 0x10, 0xF0, 0x10, 0xF0,
   0x90, 0x90, 0xF0, 0x10, 0x10,
   0xF0, 0x80, 0xF0, 0x10, 0xF0,
   0xF0, 0x80, 0xF0, 0x90, 0xF0,
   0xF0, 0x10, 0x20, 0x40, 0x40,
   0xF0, 0x90, 0xF0, 0x90, 0xF0,
   0xF0, 0x90, 0xF0, 0x10, 0xF0,
   0xF0, 0x90, 0xF0, 0x90, 0x90,
   0xE0, 0x90, 0xE0, 0x90, 0xE0,
   0xF0, 0x80, 0x80, 0x80, 0xF0,
   0xE0, 0x90, 0x90, 0x90, 0xE0,
   0xF0, 0x80, 0xF0, 0x80, 0xF0,
   0xF0, 0x80, 0xF0, 0x80, 0x80]

/-- The machine right after `Chip8::new()` followed by `load` of a ROM image:
zeroed memory with the font at `[0, 80)` and the image at `0x200..`,
`pc = 0x200`, cleared registers/display/stack. `t` is the `Instant::now()`
the two scheduling deadlines start from. -/
def loadProgram (rom : List Nat) (t : ℚ) : Chip8 :=
  { memory := fun a =>
      if a < 80 then fontData.getD a 0
      else if 0x200 ≤ a ∧ a < 0x200 + rom.length then rom.getD (a - 0x200) 0
      else 0
    display := fun _ => 0
    v := fun _ => 0
    pc := 0x200
    st := 0
    dt := 0
    i := 0
    stack := []
    mode := Modes.Chip8
    keys := fun _ => false
    execution_speed := 1
    next_tick := t
    next_timers_tick := t
    sound_playing := false }

/-- A loaded-and-idle machine used as the base of the concrete test states:
cleared memory/registers/display, `pc = 0x200`, timer deadline before the
instruction deadline so a debug step takes the timer branch. -/
def baseChip : Chip8 :=
  { memory := fun _ => 0
    display := fun _ => 0
    v := fun _ => 0
    pc := 0x200
    st := 0
    dt := 0
    i := 0
    stack := []
    mode := Modes.Chip8
    keys := fun _ => false
    execution_speed := 1
    next_tick := 1
    next_timers_tick := 0
    sound_playing := false }

/-! ### C9 — decode totality -/

/-- The words matched by a non-fall-through arm of the decoder's nested mask
dispatch — the known instruction encodings of the opcode table (`00E0`/`00EE`,
the full `1NNN`..`7XNN` and `9XY0`..`DXYN` families, `8XY0`-`8XY7`/`8XYE`,
`EX9E`/`EXA1`, and the nine `FX..` forms). -/
def knownEncoding (w : Nat) : Bool :=
  match Nat.land w 0xF000 with
  | 0x0000 =>
    match w with
    | 0x00EE => true
    | 0x00E0 => true
    | _ => false
  | 0x1000 => true
  | 0x2000 => true
  | 0x3000 => true
  | 0x4000 => true
  | 0x5000 => true
  | 0x6000 => true
  | 0x7000 => true
  | 0x8000 =>
    match Nat.land w 0xF00F with
    | 0x8000 => true
    | 0x8001 => true
    | 0x8002 => true
    | 0x8003 => true
    | 0x8004 => true
    | 0x8005 => true
    | 0x8006 => true
    | 0x8007 => true
    | 0x800E => true
    | _ => false
  | 0x9000 => true
  | 0xA000 => true
  | 0xB000 => true
  | 0xC000 => true
  | 0xD000 => true
  | 0xE000 =>
    match Nat.land w 0xF0FF with
    | 0xE09E => true
    | 0xE0A1 => true
    | _ => false
  | 0xF000 =>
    match Nat.land w 0xF0FF with
    | 0xF015 => true
    | 0xF055 => true
    | 0xF065 => true
    | 0xF007 => true
    | 0xF00A => true
    | 0xF018 => true
    | 0xF029 => true
    | 0xF033 => true
    | 0xF01E => true
    | _ => false
  | _ => false

/-- Claim C9: decode is total and never reports an error: for every 16-bit
instruction word the decoder returns `Ok` with some opcode variant, every
word matching no known encoding is mapped to the explicit `Unkn` variant
carrying the word itself, and the `Err` branch of the `Result` is never
produced. -/
theorem c9_decode_total (w : Nat) (h : w < 65536) :
    ∃ op, tryFrom w = Except.ok op ∧
      (knownEncoding w = false → op = OpCodes.Unkn w) ∧
      (∀ u, op = OpCodes.Unkn u → u = w) := by
  refine ⟨_, rfl, ?_, ?_⟩
  · intro hke
    unfold knownEncoding at hke
    split <;>
      first
        | rfl
        | (rename_i heq; rw [heq] at hke; simp at hke; done)
        | (rename_i heq
           rw [heq] at hke
           simp at hke
           split <;>
             first
               | rfl
               | (rename_i heq2; rw [heq2] at hke; simp at hke; done)
               | (simp at hke; done))
  · intro u hu
    split at hu <;>
      first
        | (cases hu <;> omega)
        | (split at hu <;> (cases hu <;> omega))

/-- Witness for C9 at the concrete non-encoding word `0x8008` (an `8XY_`
word with sub-opcode 8, which matches no arm): the decoder yields
`Ok (Unkn 0x8008)`. -/
theorem c9_decode_total_witness :
    0x8008 < 65536 ∧ knownEncoding 0x8008 = false ∧
    (∃ op, tryFrom 0x8008 = Except.ok op ∧
      (knownEncoding 0x8008 = false → op = OpCodes.Unkn 0x8008) ∧
      (∀ u, op = OpCodes.Unkn u → u = 0x8008)) :=
  ⟨by decide, by decide, c9_decode_total 0x8008 (by decide)⟩

/-! ### C2 — SUB/SUBN borrow flag -/

/-- Registers V0=1, V1=2 (a SUB borrow case) and V2=5, V3=3 (a SUBN borrow
case, since Vy=V3 < Vx=V2). -/
def c2chip : Chip8 :=
  { baseChip with
    v := fun k => if k = 0 then 1 else if k = 1 then 2 else if k = 2 then 5 else
                  if k = 3 then 3 else 0 }

/-- Result of executing `SUB V0,V1` on `c2chip`. -/
def c2sub : Chip8 := (execOp 0 (OpCodes.SubVxVy 0 1) c2chip).getD c2chip

/-- Result of executing `SUBN V2,V3` on `c2chip`. -/
def c2subn : Chip8 := (execOp 0 (OpCodes.SubnVxVy 2 3) c2chip).getD c2chip

/-- Claim C2, evaluated at the failing input: with V0=1 < V1=2 the code's
`SUB V0,V1` leaves VF = 1, and with V3=3 < V2=5 the code's `SUBN V2,V3`
leaves VF = 1 — the claim (matching canonical CHIP-8) requires VF = 0 in both
borrow cases, so the code inverts the borrow flag. The wrapping differences
(255 and 254) agree with the claim. -/
theorem c2_sub_flag_inverted :
    execOp 0 (OpCodes.SubVxVy 0 1) c2chip = some c2sub ∧
    c2chip.v 0 < c2chip.v 1 ∧ c2sub.v 0 = 255 ∧ c2sub.v 15 = 1 ∧
    execOp 0 (OpCodes.SubnVxVy 2 3) c2chip = some c2subn ∧
    c2chip.v 3 < c2chip.v 2 ∧ c2subn.v 2 = 254 ∧ c2subn.v 15 = 1 :=
  ⟨rfl, by decide, by decide, by decide, rfl, by decide, by decide, by decide⟩

/-! ### C5 — ADD immediate / ADD register flag behaviour -/

/-- Registers VF=100, VE=100: an `ADD VF,VE` whose wrapping sum is 200. -/
def c5b : Chip8 :=
  { baseChip with v := fun k => if k = 15 then 100 else if k = 14 then 100 else 0 }

/-- Result of `ADD VF,1` on `baseChip`. -/
def c5r1 : Chip8 := (execOp 0 (OpCodes.AddVxNn 15 1) baseChip).getD baseChip

/-- Result of `ADD VF,VE` on `c5b`. -/
def c5r2 : Chip8 := (execOp 0 (OpCodes.AddVxVy 15 14) c5b).getD c5b

/-- Counterexample to C5 as stated: `ADD VF,1` does modify VF (0 becomes 1),
and `ADD VF,VE` does not store the wrapping sum (200) into its destination —
the flag write overwrites it with 0. -/
theorem c5_cex :
    execOp 0 (OpCodes.AddVxNn 15 1) baseChip = some c5r1 ∧
    baseChip.v 15 = 0 ∧ c5r1.v 15 = 1 ∧
    execOp 0 (OpCodes.AddVxVy 15 14) c5b = some c5r2 ∧
    (c5b.v 15 + c5b.v 14) % 256 = 200 ∧ c5r2.v 15 = 0 :=
  ⟨rfl, by decide, by decide, rfl, by decide, by decide⟩

/-- Claim C5 as amended: `Add Vx,NN` stores `(Vx + NN) mod 256` into Vx, sets
no flag, and leaves every register other than the destination unchanged (so
VF is untouched unless x = F names it as the destination); `Add Vx,Vy` sets
VF to exactly 1 when the unsigned sum exceeds 255 else 0, and stores the
wrapping 8-bit sum into Vx except when x = F, where the flag write overwrites
the sum. -/
theorem c5_amended (r : Nat) (c : Chip8) (x n y : Nat) :
    (∃ c1, execOp r (OpCodes.AddVxNn x n) c = some c1 ∧
      ∀ k, c1.v k = if k = x then (c.v x + n) % 256 else c.v k) ∧
    (∃ c1, execOp r (OpCodes.AddVxVy x y) c = some c1 ∧
      ∀ k, c1.v k = if k = 15 then (if 256 ≤ c.v x + c.v y then 1 else 0)
                    else if k = x then (c.v x + c.v y) % 256 else c.v k) :=
  ⟨⟨_, rfl, fun _ => rfl⟩, ⟨_, rfl, fun _ => rfl⟩⟩

/-! ### C10 — flag-destination aliasing for ADD/SUB/SUBN -/

/-- Claim C10: when the flag-setting arithmetic opcodes target VF itself
(x = F), VF ends up holding the carry/borrow flag — the arithmetic result is
discarded because the flag is written to the same register after the result —
and no other register changes. -/
theorem c10_flag_aliasing (r y : Nat) (c : Chip8) :
    (∃ c1, execOp r (OpCodes.AddVxVy 15 y) c = some c1 ∧
      c1.v 15 = (if 256 ≤ c.v 15 + c.v y then 1 else 0) ∧
      ∀ k, k ≠ 15 → c1.v k = c.v k) ∧
    (∃ c1, execOp r (OpCodes.SubVxVy 15 y) c = some c1 ∧
      c1.v 15 = (if c.v 15 < c.v y then 1 else 0) ∧
      ∀ k, k ≠ 15 → c1.v k = c.v k) ∧
    (∃ c1, execOp r (OpCodes.SubnVxVy 15 y) c = some c1 ∧
      c1.v 15 = (if c.v y < c.v 15 then 1 else 0) ∧
      ∀ k, k ≠ 15 → c1.v k = c.v k) := by
  refine ⟨⟨_, rfl, ?_, ?_⟩, ⟨_, rfl, ?_, ?_⟩, ⟨_, rfl, ?_, ?_⟩⟩ <;>
    first
      | (intro k hk; simp [upd, hk])
      | simp [upd]

/-- Witness for C10 at the concrete state `c2chip` (VF=0, V0=1). -/
theorem c10_flag_aliasing_witness :
    ∃ c1, execOp 0 (OpCodes.AddVxVy 15 0) c2chip = some c1 ∧
      c1.v 15 = (if 256 ≤ c2chip.v 15 + c2chip.v 0 then 1 else 0) ∧
      ∀ k, k ≠ 15 → c1.v k = c2chip.v k :=
  (c10_flag_aliasing 0 0 c2chip).1

/-! ### C8 — undo on empty history -/

/-- Claim C8: an undo command with an empty snapshot history is a silent
no-op — it is not an error and the whole debugger/machine state is left
unchanged. -/
theorem c8_undo_empty_noop (st : Stage) (h : st.states = []) : undoCommand st = st := by
  cases st with
  | mk chip states =>
    cases states with
    | nil => rfl
    | cons a l => simp at h

/-- Witness for C8 at a concrete empty-history stage. -/
theorem c8_undo_empty_noop_witness :
    undoCommand ⟨baseChip, []⟩ = (⟨baseChip, []⟩ : Stage) :=
  c8_undo_empty_noop ⟨baseChip, []⟩ rfl

/-! ### C7 — fatal execute-time conditions -/

/-- A machine about to execute the undecodable word `0xFFFF`. -/
def unknChip : Chip8 :=
  { baseChip with
    memory := fun a => if a = 0x200 then 0xFF else if a = 0x201 then 0xFF else 0 }

/-- A machine about to execute `RET` (`00EE`) with an empty call stack. -/
def retChip : Chip8 :=
  { baseChip with
    memory := fun a => if a = 0x201 then 0xEE else 0 }

/-- A machine about to execute `LD B, V0` (`F033`) with `I = 4095`: the BCD
store writes `memory[4095]`, `memory[4096]`, `memory[4097]`, and the second
write indexes out of bounds. -/
def bcdChip : Chip8 :=
  { baseChip with
    memory := fun a => if a = 0x200 then 0xF0 else if a = 0x201 then 0x33 else 0
    i := 4095 }

/-- Result of ticking `bcdChip` (evaluates to the fatal `none`). -/
theorem c7_cex :
    tick 0 bcdChip = none ∧
    fetchWord bcdChip = some 0xF033 ∧
    tryFrom 0xF033 = Except.ok (OpCodes.LdBVx 0) ∧
    (∀ u, OpCodes.LdBVx 0 ≠ OpCodes.Unkn u) ∧
    OpCodes.LdBVx 0 ≠ OpCodes.Ret ∧
    bcdChip.stack = [] :=
  ⟨rfl, rfl, rfl, fun _ h => OpCodes.noConfusion h, fun h => OpCodes.noConfusion h, rfl⟩

/-- Claim C7 as amended: executing an instruction that decodes to the unknown
variant is fatal, and executing `RET` with an empty call stack is fatal —
but they are not the only fatal execute-time conditions (out-of-bounds memory
indexing also aborts, see `c7_cex`). -/
theorem c7_amended :
    (∀ (r : Nat) (c : Chip8) (w u : Nat), fetchWord c = some w →
      tryFrom w = Except.ok (OpCodes.Unkn u) → tick r c = none) ∧
    (∀ (r : Nat) (c : Chip8) (w : Nat), fetchWord c = some w →
      tryFrom w = Except.ok OpCodes.Ret → c.stack = [] → tick r c = none) := by
  constructor
  · intro r c w u hf hd
    simp [tick, hf, hd, execOp]
  · intro r c w hf hd hs
    simp [tick, hf, hd, execOp, hs]

/-- Witness for C7 (amended) at the two concrete fatal machines. -/
theorem c7_amended_witness : tick 0 unknChip = none ∧ tick 0 retChip = none :=
  ⟨c7_amended.1 0 unknChip 0xFFFF 0xFFFF rfl rfl,
   c7_amended.2 0 retChip 0x00EE rfl rfl rfl⟩

/-! ### C1 — N debug steps then N undos restore the state exactly -/

/-- Claim C1: for every debugger state and every sequence of N step commands
(each pushing a snapshot before executing one scheduling unit), if all N
steps execute, then N undo commands restore the live machine — every field:
memory, display, registers, PC, I, timers, call stack, mode, key state,
speed, scheduling deadlines, sound flag — and the snapshot history, exactly
as they were before the first step. -/
theorem c1_step_undo (rs : List Nat) :
    ∀ st st' : Stage, stepN rs st = some st' → undoN rs.length st' = st := by
  induction rs with
  | nil =>
    intro st st' h
    simp [stepN] at h
    subst h
    rfl
  | cons r rs ih =>
    intro st st' h
    simp only [stepN] at h
    cases hs : stepCommand r st with
    | none => rw [hs] at h; exact absurd h (by simp)
    | some st1 =>
      rw [hs] at h
      have h1 := ih st1 st' h
      show undoCommand (undoN rs.length st') = st
      rw [h1]
      unfold stepCommand at hs
      cases hd : step_debug r st.chip with
      | none => rw [hd] at hs; exact absurd hs (by simp)
      | some c1 =>
        rw [hd] at hs
        injection hs with hs
        subst hs
        cases st with
        | mk chip states => rfl

/-- The debugger stage after one concrete step command on `⟨baseChip, []⟩`. -/
def dbgStage1 : Stage := (stepN [0] ⟨baseChip, []⟩).getD ⟨baseChip, []⟩

/-- Witness for C1: one concrete step command succeeds (timer branch) and one
undo restores the exact pre-step stage. -/
theorem c1_step_undo_witness :
    stepN [0] ⟨baseChip, []⟩ = some dbgStage1 ∧
    undoN 1 dbgStage1 = (⟨baseChip, []⟩ : Stage) :=
  ⟨rfl, c1_step_undo [0] ⟨baseChip, []⟩ dbgStage1 rfl⟩

/-! ### C6 — FX0A key wait -/

/-- A found key is pressed and is the lowest-indexed pressed key at or above
the scan start. -/
theorem firstKeyAux_some (keys : Nat → Bool) :
    ∀ fuel k0 k, firstKeyAux keys k0 fuel = some k →
      keys k = true ∧ k0 ≤ k ∧ ∀ j, k0 ≤ j → j < k → keys j = false := by
  intro fuel
  induction fuel with
  | zero => intro k0 k h; simp [firstKeyAux] at h
  | succ n ih =>
    intro k0 k h
    unfold firstKeyAux at h
    cases hk : keys k0 with
    | true =>
      rw [hk] at h
      simp at h
      subst h
      exact ⟨hk, le_refl _, fun j hj1 hj2 => absurd hj1 (by omega)⟩
    | false =>
      rw [hk] at h
      simp at h
      obtain ⟨h1, h2, h3⟩ := ih (k0 + 1) k h
      refine ⟨h1, by omega, fun j hj1 hj2 => ?_⟩
      rcases Nat.lt_or_ge j (k0 + 1) with h' | h'
      · have : j = k0 := by omega
        subst this
        exact hk
      · exact h3 j h' hj2

/-- If every key in the scanned window is up, the scan finds nothing. -/
theorem firstKeyAux_none_of_all (keys : Nat → Bool) :
    ∀ fuel k0, (∀ j, k0 ≤ j → j < k0 + fuel → keys j = false) →
      firstKeyAux keys k0 fuel = none := by
  intro fuel
  induction fuel with
  | zero => intro k0 _; rfl
  | succ n ih =>
    intro k0 hall
    unfold firstKeyAux
    rw [hall k0 (le_refl _) (by omega)]
    simp
    exact ih (k0 + 1) (fun j hj1 hj2 => hall j (by omega) (by omega))

/-- Claim C6: executing the key-wait opcode `FX0A` with no key pressed leaves
the machine state (and in particular the PC) exactly unchanged — the post-
fetch `pc -= 2` cancels the fetch increment, so repeated executions keep the
PC fixed; with at least one key pressed, Vx is set to the lowest-indexed
pressed key and the PC advances normally by 2. -/
theorem c6_key_wait (r x : Nat) (c : Chip8) (w : Nat)
    (hf : fetchWord c = some w) (hd : tryFrom w = Except.ok (OpCodes.LdVxK x)) :
    ((∀ k, k < 16 → c.keys k = false) → tick r c = some c) ∧
    (∀ k, firstKey c.keys = some k →
      tick r c = some { c with pc := c.pc + 2, v := upd c.v x k } ∧
      c.keys k = true ∧ ∀ j, j < k → c.keys j = false) := by
  constructor
  · intro hall
    have hnone : firstKey c.keys = none :=
      firstKeyAux_none_of_all c.keys 16 0 (fun j hj1 hj2 => hall j (by omega))
    simp only [tick, hf, hd, execOp, hnone]
    have hpc : c.pc + 2 - 2 = c.pc := by omega
    simp [hpc]
  · intro k hk
    obtain ⟨h1, _, h3⟩ := firstKeyAux_some c.keys 16 0 k hk
    refine ⟨?_, h1, fun j hj => h3 j (by omega) hj⟩
    simp only [tick, hf, hd, execOp, hk]

/-- A machine whose next instruction is `LD V0, K` (`F00A`), no key pressed. -/
def keyChip : Chip8 :=
  { baseChip with
    memory := fun a => if a = 0x200 then 0xF0 else if a = 0x201 then 0x0A else 0 }

/-- The same machine with keys 3 and 7 pressed. -/
def keyChip2 : Chip8 :=
  { keyChip with keys := fun k => k == 3 || k == 7 }

/-- Witness for C6: with no keys the tick returns the state unchanged; with
keys 3 and 7 down, V0 receives 3 (the lowest pressed index) and PC advances
by 2. -/
theorem c6_key_wait_witness :
    tick 0 keyChip = some keyChip ∧
    (tick 0 keyChip2 = some { keyChip2 with pc := keyChip2.pc + 2, v := upd keyChip2.v 0 3 } ∧
      keyChip2.keys 3 = true ∧ ∀ j, j < 3 → keyChip2.keys j = false) :=
  ⟨(c6_key_wait 0 0 keyChip 0xF00A rfl rfl).1 (by decide),
   (c6_key_wait 0 0 keyChip2 0xF00A rfl rfl).2 3 rfl⟩

/-! ### C4 — PC alignment -/

/-- The opcodes that load the PC from an instruction operand or the stack. -/
def isControlJump : OpCodes → Bool
  | .Jmp _ => true
  | .JmpV0Nnn _ => true
  | .Call _ => true
  | .Ret => true
  | _ => false

/-- A successful checked memory write only rewrites the `memory` field. -/
theorem memWrite_eq (c : Chip8) (a val : Nat) (c1 : Chip8) (h : memWrite c a val = some c1) :
    c1 = { c with memory := upd c.memory a val } := by
  unfold memWrite at h
  split at h
  · exact (Option.some.inj h).symm
  · cases h

/-- The draw inner loop never touches the PC. -/
theorem drawColsAux_pc (x row line : Nat) :
    ∀ fuel dx c, (drawColsAux x row line dx fuel c).pc = c.pc := by
  intro fuel
  induction fuel with
  | zero => intro dx c; rfl
  | succ n ih =>
    intro dx c
    unfold drawColsAux
    split
    · rfl
    · exact (ih (dx + 1) (drawColBody x row line dx c)).trans rfl

/-- The draw outer loop never touches the PC. -/
theorem drawRowsAux_pc (x y : Nat) :
    ∀ fuel dy c c', drawRowsAux x y dy fuel c = some c' → c'.pc = c.pc := by
  intro fuel
  induction fuel with
  | zero =>
    intro dy c c' h
    simp [drawRowsAux] at h
    subst h
    rfl
  | succ n ih =>
    intro dy c c' h
    unfold drawRowsAux at h
    split at h
    · simp at h; subst h; rfl
    · split at h
      · cases h
      · exact (ih (dy + 1) _ c' h).trans (drawColsAux_pc x (y + dy) _ 8 0 c)

/-- The register-store loop never touches the PC. -/
theorem stRegsAux_pc :
    ∀ fuel dx c c', stRegsAux dx fuel c = some c' → c'.pc = c.pc := by
  intro fuel
  induction fuel with
  | zero => intro dx c c' h; simp [stRegsAux] at h; subst h; rfl
  | succ n ih =>
    intro dx c c' h
    unfold stRegsAux at h
    cases hw : memWrite c (c.i + dx) (c.v dx) with
    | none => rw [hw] at h; cases h
    | some c1 =>
      rw [hw] at h
      have := memWrite_eq c _ _ c1 hw
      subst this
      exact (ih (dx + 1) _ c' h).trans rfl

/-- The register-load loop never touches the PC. -/
theorem ldRegsAux_pc :
    ∀ fuel dx c c', ldRegsAux dx fuel c = some c' → c'.pc = c.pc := by
  intro fuel
  induction fuel with
  | zero => intro dx c c' h; simp [ldRegsAux] at h; subst h; rfl
  | succ n ih =>
    intro dx c c' h
    unfold ldRegsAux at h
    cases hw : memRead c (c.i + dx) with
    | none => rw [hw] at h; cases h
    | some val =>
      rw [hw] at h
      exact (ih (dx + 1) _ c' h).trans rfl

/-- Executing any opcode outside the jump/call/return family changes the PC
by an even amount, so it preserves PC evenness. -/
theorem execOp_pc_even (r : Nat) (op : OpCodes) (c c' : Chip8)
    (h : execOp r op c = some c') (hj : isControlJump op = false)
    (he : c.pc % 2 = 0) : c'.pc % 2 = 0 := by
  cases op <;> simp [isControlJump] at hj <;> simp only [execOp] at h
  case Unkn => cases h
  case Cls => rw [← (Option.some.inj h)]; exact he
  case LdINn => rw [← (Option.some.inj h)]; exact he
  case RndVxNn => rw [← (Option.some.inj h)]; exact he
  case LdVxNn => rw [← (Option.some.inj h)]; exact he
  case DrawVxVyN vx vy n =>
    have := drawRowsAux_pc _ _ n 0 _ c' h
    rw [this]
    exact he
  case SkpVx x =>
    cases hw : keysRead c (c.v x) with
    | none => rw [hw] at h; cases h
    | some b =>
      rw [hw] at h
      rw [← (Option.some.inj h)]
      cases b <;> simp <;> omega
  case SknpVx x =>
    cases hw : keysRead c (c.v x) with
    | none => rw [hw] at h; cases h
    | some b =>
      rw [hw] at h
      rw [← (Option.some.inj h)]
      cases b <;> simp <;> omega
  case AddVxNn => rw [← (Option.some.inj h)]; exact he
  case SeVxNn x n =>
    rw [← (Option.some.inj h)]
    split <;> first | (simp; omega) | omega
  case SneVxNn x n =>
    rw [← (Option.some.inj h)]
    split <;> first | (simp; omega) | omega
  case SeVxVy x y =>
    rw [← (Option.some.inj h)]
    split <;> first | (simp; omega) | omega
  case SneVxVy x y =>
    rw [← (Option.some.inj h)]
    split <;> first | (simp; omega) | omega
  case LdVxVy => rw [← (Option.some.inj h)]; exact he
  case OrVxVy => rw [← (Option.some.inj h)]; exact he
  case AndVxVy => rw [← (Option.some.inj h)]; exact he
  case XorVxVy => rw [← (Option.some.inj h)]; exact he
  case AddVxVy => rw [← (Option.some.inj h)]; exact he
  case SubVxVy => rw [← (Option.some.inj h)]; exact he
  case ShrVxVy => rw [← (Option.some.inj h)]; exact he
  case SubnVxVy => rw [← (Option.some.inj h)]; exact he
  case ShlVxVy => rw [← (Option.some.inj h)]; exact he
  case LdIVx x =>
    have := stRegsAux_pc (x + 1) 0 c c' h
    rw [this]; exact he
  case LdVxI x =>
    have := ldRegsAux_pc (x + 1) 0 c c' h
    rw [this]; exact he
  case LdVxK x =>
    cases hk : firstKey c.keys with
    | some key => rw [hk] at h; rw [← (Option.some.inj h)]; exact he
    | none =>
      rw [hk] at h
      rw [← (Option.some.inj h)]
      simp
      omega
  case LdVxDt => rw [← (Option.some.inj h)]; exact he
  case LdDtVx => rw [← (Option.some.inj h)]; exact he
  case LdStVx => rw [← (Option.some.inj h)]; exact he
  case AddIVx => rw [← (Option.some.inj h)]; exact he
  case LdFVx => rw [← (Option.some.inj h)]; exact he
  case LdBVx x =>
    cases h1 : memWrite c c.i (c.v x / 100) with
    | none => rw [h1] at h; cases h
    | some c1 =>
      rw [h1] at h
      have e1 := memWrite_eq c _ _ c1 h1
      have hb : (match memWrite c1 (c1.i + 1) (c1.v x / 10 % 10) with
                 | none => none
                 | some c2 => memWrite c2 (c2.i + 2) (c2.v x % 10)) = some c' := h
      cases h2 : memWrite c1 (c1.i + 1) (c1.v x / 10 % 10) with
      | none => rw [h2] at hb; cases hb
      | some c2 =>
        rw [h2] at hb
        have e2 := memWrite_eq c1 _ _ c2 h2
        have e3 := memWrite_eq c2 _ _ c' hb
        subst e1; subst e2; subst e3
        exact he

/-- Claim C4 as amended: the interpreter does not enforce PC alignment — a
jump/call with an odd target makes the PC odd (see `c4_cex`) — but every
opcode outside the jump/call/return family preserves 2-byte PC alignment
across a full fetch-execute tick. -/
theorem c4_amended (r : Nat) (c c' : Chip8) (w : Nat) (op : OpCodes)
    (hf : fetchWord c = some w) (hd : tryFrom w = Except.ok op)
    (hj : isControlJump op = false) (ht : tick r c = some c')
    (he : c.pc % 2 = 0) : c'.pc % 2 = 0 := by
  unfold tick at ht
  rw [hf] at ht
  simp only [hd] at ht
  exact execOp_pc_even r op { c with pc := c.pc + 2 } c' ht hj (by simp; omega)

/-- The machine obtained by loading the two-byte program `[0x12, 0x01]`
(`JMP 0x201`) and executing its first instruction. -/
def oddJmp : Chip8 := (tick 0 (loadProgram [0x12, 0x01] 0)).getD (loadProgram [0x12, 0x01] 0)

/-- Counterexample to C4 as stated: from the freshly loaded initial state
(PC = 0x200, even), executing the first instruction `JMP 0x201` leaves the
PC at the odd address 0x201, so even alignment is not an invariant of
reachable states. -/
theorem c4_cex :
    (loadProgram [0x12, 0x01] 0).pc = 0x200 ∧
    tick 0 (loadProgram [0x12, 0x01] 0) = some oddJmp ∧
    oddJmp.pc = 0x201 ∧ 0x201 % 2 = 1 :=
  ⟨rfl, rfl, by decide, by decide⟩

/-- A machine whose next instruction is `LD V0, 0x05` (`6005`). -/
def ldChip : Chip8 :=
  { baseChip with
    memory := fun a => if a = 0x200 then 0x60 else if a = 0x201 then 0x05 else 0 }

/-- Witness for C4 (amended) at a concrete `LD V0, 0x05` tick. -/
theorem c4_amended_witness :
    ldChip.pc % 2 = 0 ∧ ((tick 0 ldChip).getD ldChip).pc % 2 = 0 :=
  ⟨by decide,
   c4_amended 0 ldChip ((tick 0 ldChip).getD ldChip) 0x6005 (OpCodes.LdVxNn 0 5)
     rfl rfl rfl rfl (by decide)⟩

/-! ### C3 — DXYN draw: loop characterization -/

theorem upd_same (f : Nat → Nat) (i v : Nat) : upd f i v i = v := by
  unfold upd
  rw [if_pos rfl]

theorem upd_other (f : Nat → Nat) (i v j : Nat) (h : j ≠ i) : upd f i v j = f j := by
  unfold upd
  rw [if_neg h]

/-- Some column `j` scanned by the inner loop (from `dx`, `fuel` iterations
left) is a set sprite bit that lands, unclipped, on display cell `loc`. -/
def colHit (x row line dx fuel loc : Nat) : Prop :=
  ∃ j, dx ≤ j ∧ j < dx + fuel ∧ x + j < 64 ∧
    (128 >>> j) &&& line ≠ 0 ∧ loc = x + j + row * 64

/-- Some column scanned by the inner loop is a set sprite bit landing on an
already-lit (255) cell of `disp`. -/
def colCollide (disp : Nat → Nat) (x row line dx fuel : Nat) : Prop :=
  ∃ j, dx ≤ j ∧ j < dx + fuel ∧ x + j < 64 ∧
    (128 >>> j) &&& line ≠ 0 ∧ disp (x + j + row * 64) = 255

theorem colHit_zero (x row line dx loc : Nat) : ¬ colHit x row line dx 0 loc := by
  rintro ⟨j, h1, h2, -⟩
  omega

theorem colHit_break (x row line dx fuel loc : Nat) (h : 64 ≤ x + dx) :
    ¬ colHit x row line dx fuel loc := by
  rintro ⟨j, h1, h2, h3, -⟩
  omega

theorem colCollide_zero (disp : Nat → Nat) (x row line dx : Nat) :
    ¬ colCollide disp x row line dx 0 := by
  rintro ⟨j, h1, h2, -⟩
  omega

theorem colCollide_break (disp : Nat → Nat) (x row line dx fuel : Nat) (h : 64 ≤ x + dx) :
    ¬ colCollide disp x row line dx fuel := by
  rintro ⟨j, h1, h2, h3, -⟩
  omega

theorem colHit_succ (x row line dx fuel loc : Nat) :
    colHit x row line dx (fuel + 1) loc ↔
      (x + dx < 64 ∧ (128 >>> dx) &&& line ≠ 0 ∧ loc = x + dx + row * 64) ∨
      colHit x row line (dx + 1) fuel loc := by
  constructor
  · rintro ⟨j, h1, h2, h3, h4, h5⟩
    by_cases hj : j = dx
    · subst hj
      exact Or.inl ⟨h3, h4, h5⟩
    · exact Or.inr ⟨j, by omega, by omega, h3, h4, h5⟩
  · rintro (⟨h1, h2, h3⟩ | ⟨j, h1, h2, h3, h4, h5⟩)
    · exact ⟨dx, le_refl _, by omega, h1, h2, h3⟩
    · exact ⟨j, by omega, by omega, h3, h4, h5⟩

theorem colCollide_succ (disp : Nat → Nat) (x row line dx fuel : Nat) :
    colCollide disp x row line dx (fuel + 1) ↔
      (x + dx < 64 ∧ (128 >>> dx) &&& line ≠ 0 ∧ disp (x + dx + row * 64) = 255) ∨
      colCollide disp x row line (dx + 1) fuel := by
  constructor
  · rintro ⟨j, h1, h2, h3, h4, h5⟩
    by_cases hj : j = dx
    · subst hj
      exact Or.inl ⟨h3, h4, h5⟩
    · exact Or.inr ⟨j, by omega, by omega, h3, h4, h5⟩
  · rintro (⟨h1, h2, h3⟩ | ⟨j, h1, h2, h3, h4, h5⟩)
    · exact ⟨dx, le_refl _, by omega, h1, h2, h3⟩
    · exact ⟨j, by omega, by omega, h3, h4, h5⟩

/-- The head cell of an inner-loop step is not hit again by the loop tail. -/
theorem colHit_head_unique (x row line dx fuel : Nat) (h64 : x + dx < 64) :
    ¬ colHit x row line (dx + 1) fuel (x + dx + row * 64) := by
  rintro ⟨j, h1, h2, h3, h4, h5⟩
  omega

/-- Two unclipped sprite columns hitting the same display cell lie on the
same display row. -/
theorem colHit_row_eq (x r1 l1 r2 l2 loc : Nat)
    (h1 : colHit x r1 l1 0 8 loc) (h2 : colHit x r2 l2 0 8 loc) : r1 = r2 := by
  obtain ⟨j1, -, a2, a3, -, a5⟩ := h1
  obtain ⟨j2, -, b2, b3, -, b5⟩ := h2
  omega

theorem drawColBody_display (x row line dx : Nat) (c : Chip8) (loc : Nat) :
    (drawColBody x row line dx c).display loc =
      if loc = x + dx + row * 64 ∧ (128 >>> dx) &&& line ≠ 0
      then c.display loc ^^^ 255 else c.display loc := by
  show (if (128 >>> dx) &&& line ≠ 0
        then upd c.display (x + dx + row * 64) (c.display (x + dx + row * 64) ^^^ 255)
        else c.display) loc = _
  by_cases hb : (128 >>> dx) &&& line ≠ 0
  · rw [if_pos hb]
    by_cases hl : loc = x + dx + row * 64
    · rw [hl, upd_same, if_pos ⟨rfl, hb⟩]
    · rw [upd_other _ _ _ _ hl, if_neg (fun hx => hl hx.1)]
  · rw [if_neg hb, if_neg (fun hx => hb hx.2)]

theorem drawColBody_v15 (x row line dx : Nat) (c : Chip8) :
    (drawColBody x row line dx c).v 15 =
      if (128 >>> dx) &&& line ≠ 0 ∧ c.display (x + dx + row * 64) = 255
      then 1 else c.v 15 := by
  show (if c.display (x + dx + row * 64) = 255 ∧
          (if (128 >>> dx) &&& line ≠ 0
           then upd c.display (x + dx + row * 64) (c.display (x + dx + row * 64) ^^^ 255)
           else c.display) (x + dx + row * 64) = 0
        then upd c.v 15 1 else c.v) 15 = _
  by_cases hb : (128 >>> dx) &&& line ≠ 0
  · rw [if_pos hb, upd_same]
    by_cases hc : c.display (x + dx + row * 64) = 255
    · rw [hc, if_pos ⟨rfl, by decide⟩, upd_same, if_pos ⟨hb, rfl⟩]
    · rw [if_neg (fun hx => hc hx.1), if_neg (fun hx => hc hx.2)]
  · rw [if_neg hb,
      if_neg (fun hx => absurd ((hx.1).symm.trans hx.2) (by decide)),
      if_neg (fun hx => hb hx.1)]

theorem drawColBody_vk (x row line dx : Nat) (c : Chip8) (k : Nat) (hk : k ≠ 15) :
    (drawColBody x row line dx c).v k = c.v k := by
  show (if c.display (x + dx + row * 64) = 255 ∧
          (if (128 >>> dx) &&& line ≠ 0
           then upd c.display (x + dx + row * 64) (c.display (x + dx + row * 64) ^^^ 255)
           else c.display) (x + dx + row * 64) = 0
        then upd c.v 15 1 else c.v) k = c.v k
  split <;> split <;> first | exact upd_other c.v 15 1 k hk | rfl

/-- One inner-loop body step does not disturb cells at or above the second
scanned column. -/
theorem colCollide_body (x row line dx fuel : Nat) (c : Chip8) (h64 : x + dx < 64) :
    colCollide (drawColBody x row line dx c).display x row line (dx + 1) fuel ↔
      colCollide c.display x row line (dx + 1) fuel := by
  unfold colCollide
  refine exists_congr (fun j => ?_)
  constructor <;> rintro ⟨h1, h2, h3, h4, h5⟩ <;> refine ⟨h1, h2, h3, h4, ?_⟩
  · have hne : ¬(x + j + row * 64 = x + dx + row * 64 ∧ (128 >>> dx) &&& line ≠ 0) := by
      rintro ⟨e, -⟩
      omega
    rw [drawColBody_display, if_neg hne] at h5
    exact h5
  · have hne : ¬(x + j + row * 64 = x + dx + row * 64 ∧ (128 >>> dx) &&& line ≠ 0) := by
      rintro ⟨e, -⟩
      omega
    rw [drawColBody_display, if_neg hne]
    exact h5

/-- Full characterization of the inner draw loop: it leaves memory, `I`, and
the non-flag registers alone, XOR-toggles exactly the unclipped set sprite
bits of its row, and raises VF exactly on a 255-cell toggle. -/
theorem drawColsAux_spec (x row line : Nat) :
    ∀ fuel dx c,
      (drawColsAux x row line dx fuel c).memory = c.memory ∧
      (drawColsAux x row line dx fuel c).i = c.i ∧
      (∀ k, k ≠ 15 → (drawColsAux x row line dx fuel c).v k = c.v k) ∧
      (∀ loc, colHit x row line dx fuel loc →
        (drawColsAux x row line dx fuel c).display loc = c.display loc ^^^ 255) ∧
      (∀ loc, ¬ colHit x row line dx fuel loc →
        (drawColsAux x row line dx fuel c).display loc = c.display loc) ∧
      (colCollide c.display x row line dx fuel → (drawColsAux x row line dx fuel c).v 15 = 1) ∧
      (¬ colCollide c.display x row line dx fuel →
        (drawColsAux x row line dx fuel c).v 15 = c.v 15) := by
  intro fuel
  induction fuel with
  | zero =>
    intro dx c
    refine ⟨rfl, rfl, fun k _ => rfl, ?_, fun loc _ => rfl, ?_, fun _ => rfl⟩
    · intro loc hl
      exact absurd hl (colHit_zero x row line dx loc)
    · intro hcx
      exact absurd hcx (colCollide_zero c.display x row line dx)
  | succ fuel ih =>
    intro dx c
    by_cases h64 : 64 ≤ x + dx
    · have hstep : drawColsAux x row line dx (fuel + 1) c = c := by
        rw [show drawColsAux x row line dx (fuel + 1) c =
            if 64 ≤ x + dx then c
            else drawColsAux x row line (dx + 1) fuel (drawColBody x row line dx c) from rfl,
          if_pos h64]
      rw [hstep]
      refine ⟨rfl, rfl, fun k _ => rfl, ?_, fun loc _ => rfl, ?_, fun _ => rfl⟩
      · intro loc hl
        exact absurd hl (colHit_break x row line dx (fuel + 1) loc h64)
      · intro hcx
        exact absurd hcx (colCollide_break c.display x row line dx (fuel + 1) h64)
    · have h64l : x + dx < 64 := by omega
      have hstep : drawColsAux x row line dx (fuel + 1) c =
          drawColsAux x row line (dx + 1) fuel (drawColBody x row line dx c) := by
        rw [show drawColsAux x row line dx (fuel + 1) c =
            if 64 ≤ x + dx then c
            else drawColsAux x row line (dx + 1) fuel (drawColBody x row line dx c) from rfl,
          if_neg h64]
      set c1 := drawColBody x row line dx c with hc1
      obtain ⟨m1, i1, vk1, hitT, hitF, colT, colF⟩ := ih (dx + 1) c1
      rw [hstep]
      refine ⟨m1.trans rfl, i1.trans rfl, ?_, ?_, ?_, ?_, ?_⟩
      · intro k hk
        exact (vk1 k hk).trans (drawColBody_vk x row line dx c k hk)
      · intro loc hl
        rcases (colHit_succ x row line dx fuel loc).1 hl with ⟨hx, hbit, hloc⟩ | htail
        · subst hloc
          rw [hitF _ (colHit_head_unique x row line dx fuel h64l)]
          rw [hc1, drawColBody_display, if_pos ⟨rfl, hbit⟩]
        · rw [hitT _ htail]
          obtain ⟨j, hj1, hj2, hj3, hj4, hj5⟩ := htail
          have hne : ¬(loc = x + dx + row * 64 ∧ (128 >>> dx) &&& line ≠ 0) := by
            rintro ⟨e, -⟩
            omega
          rw [hc1, drawColBody_display, if_neg hne]
      · intro loc hnl
        have hth : ¬ colHit x row line (dx + 1) fuel loc :=
          fun ht => hnl ((colHit_succ x row line dx fuel loc).2 (Or.inr ht))
        rw [hitF _ hth]
        by_cases hb : (128 >>> dx) &&& line ≠ 0
        · by_cases hloc : loc = x + dx + row * 64
          · exact absurd ((colHit_succ x row line dx fuel loc).2
              (Or.inl ⟨h64l, hb, hloc⟩)) hnl
          · rw [hc1, drawColBody_display, if_neg (fun hx => hloc hx.1)]
        · rw [hc1, drawColBody_display, if_neg (fun hx => hb hx.2)]
      · intro hcol
        rcases (colCollide_succ c.display x row line dx fuel).1 hcol with
          ⟨hx, hbit, hdisp⟩ | htail
        · have h115 : c1.v 15 = 1 := by
            rw [hc1, drawColBody_v15, if_pos ⟨hbit, hdisp⟩]
          by_cases ht2 : colCollide c1.display x row line (dx + 1) fuel
          · exact colT ht2
          · rw [colF ht2]
            exact h115
        · exact colT ((colCollide_body x row line dx fuel c h64l).2 htail)
      · intro hncol
        have hnir : ¬ colCollide c.display x row line (dx + 1) fuel :=
          fun ht => hncol ((colCollide_succ c.display x row line dx fuel).2 (Or.inr ht))
        have hnc1 : ¬ colCollide c1.display x row line (dx + 1) fuel :=
          fun ht => hnir ((colCollide_body x row line dx fuel c h64l).1 ht)
        rw [colF hnc1]
        rw [hc1, drawColBody_v15, if_neg]
        rintro ⟨hbit, hdisp⟩
        exact hncol ((colCollide_succ c.display x row line dx fuel).2
          (Or.inl ⟨h64l, hbit, hdisp⟩))

/-- Some unclipped row `d` scanned by the outer loop has a set sprite bit
landing on display cell `loc`. -/
def rowHit (mem : Nat → Nat) (iv x y dy fuel loc : Nat) : Prop :=
  ∃ d, dy ≤ d ∧ d < dy + fuel ∧ y + d < 32 ∧ colHit x (y + d) (mem (iv + d)) 0 8 loc

/-- Some unclipped row scanned by the outer loop has a set sprite bit landing
on an already-lit (255) cell of `disp`. -/
def rowCollide (mem : Nat → Nat) (iv : Nat) (disp : Nat → Nat) (x y dy fuel : Nat) : Prop :=
  ∃ d, dy ≤ d ∧ d < dy + fuel ∧ y + d < 32 ∧ colCollide disp x (y + d) (mem (iv + d)) 0 8

theorem rowHit_zero (mem : Nat → Nat) (iv x y dy loc : Nat) : ¬ rowHit mem iv x y dy 0 loc := by
  rintro ⟨d, h1, h2, -⟩
  omega

theorem rowHit_break (mem : Nat → Nat) (iv x y dy fuel loc : Nat) (h : 32 ≤ y + dy) :
    ¬ rowHit mem iv x y dy fuel loc := by
  rintro ⟨d, h1, h2, h3, -⟩
  omega

theorem rowCollide_zero (mem : Nat → Nat) (iv : Nat) (disp : Nat → Nat) (x y dy : Nat) :
    ¬ rowCollide mem iv disp x y dy 0 := by
  rintro ⟨d, h1, h2, -⟩
  omega

theorem rowCollide_break (mem : Nat → Nat) (iv : Nat) (disp : Nat → Nat) (x y dy fuel : Nat)
    (h : 32 ≤ y + dy) : ¬ rowCollide mem iv disp x y dy fuel := by
  rintro ⟨d, h1, h2, h3, -⟩
  omega

theorem rowHit_succ (mem : Nat → Nat) (iv x y dy fuel loc : Nat) :
    rowHit mem iv x y dy (fuel + 1) loc ↔
      (y + dy < 32 ∧ colHit x (y + dy) (mem (iv + dy)) 0 8 loc) ∨
      rowHit mem iv x y (dy + 1) fuel loc := by
  constructor
  · rintro ⟨d, h1, h2, h3, h4⟩
    by_cases hd : d = dy
    · subst hd
      exact Or.inl ⟨h3, h4⟩
    · exact Or.inr ⟨d, by omega, by omega, h3, h4⟩
  · rintro (⟨h1, h2⟩ | ⟨d, h1, h2, h3, h4⟩)
    · exact ⟨dy, le_refl _, by omega, h1, h2⟩
    · exact ⟨d, by omega, by omega, h3, h4⟩

theorem rowCollide_succ (mem : Nat → Nat) (iv : Nat) (disp : Nat → Nat) (x y dy fuel : Nat) :
    rowCollide mem iv disp x y dy (fuel + 1) ↔
      (y + dy < 32 ∧ colCollide disp x (y + dy) (mem (iv + dy)) 0 8) ∨
      rowCollide mem iv disp x y (dy + 1) fuel := by
  constructor
  · rintro ⟨d, h1, h2, h3, h4⟩
    by_cases hd : d = dy
    · subst hd
      exact Or.inl ⟨h3, h4⟩
    · exact Or.inr ⟨d, by omega, by omega, h3, h4⟩
  · rintro (⟨h1, h2⟩ | ⟨d, h1, h2, h3, h4⟩)
    · exact ⟨dy, le_refl _, by omega, h1, h2⟩
    · exact ⟨d, by omega, by omega, h3, h4⟩

/-- Full characterization of the outer draw loop. -/
theorem drawRowsAux_spec (x y : Nat) :
    ∀ fuel dy c c', drawRowsAux x y dy fuel c = some c' →
      c'.memory = c.memory ∧
      c'.i = c.i ∧
      c'.pc = c.pc ∧
      (∀ k, k ≠ 15 → c'.v k = c.v k) ∧
      (∀ loc, rowHit c.memory c.i x y dy fuel loc →
        c'.display loc = c.display loc ^^^ 255) ∧
      (∀ loc, ¬ rowHit c.memory c.i x y dy fuel loc → c'.display loc = c.display loc) ∧
      (rowCollide c.memory c.i c.display x y dy fuel → c'.v 15 = 1) ∧
      (¬ rowCollide c.memory c.i c.display x y dy fuel → c'.v 15 = c.v 15) := by
  intro fuel
  induction fuel with
  | zero =>
    intro dy c c' h
    simp [drawRowsAux] at h
    subst h
    refine ⟨rfl, rfl, rfl, fun k _ => rfl, ?_, fun loc _ => rfl, ?_, fun _ => rfl⟩
    · intro loc hl
      exact absurd hl (rowHit_zero c.memory c.i x y dy loc)
    · intro hcx
      exact absurd hcx (rowCollide_zero c.memory c.i c.display x y dy)
  | succ fuel ih =>
    intro dy c c' h
    unfold drawRowsAux at h
    split at h
    · -- clipped at the bottom: the loop returns the state unchanged
      rename_i h32
      have hcc := Option.some.inj h
      subst hcc
      refine ⟨rfl, rfl, rfl, fun k _ => rfl, ?_, fun loc _ => rfl, ?_, fun _ => rfl⟩
      · intro loc hl
        exact absurd hl (rowHit_break c.memory c.i x y dy (fuel + 1) loc h32)
      · intro hcx
        exact absurd hcx (rowCollide_break c.memory c.i c.display x y dy (fuel + 1) h32)
    · rename_i h32
      split at h
      · cases h
      · rename_i line hr
        have hline : line = c.memory (c.i + dy) := by
          unfold memRead at hr
          split at hr
          · exact (Option.some.inj hr).symm
          · cases hr
        subst hline
        obtain ⟨m1, i1, vk1, hitT, hitF, colT, colF⟩ :=
          drawColsAux_spec x (y + dy) (c.memory (c.i + dy)) 8 0 c
        obtain ⟨M, I, P, VK, HT, HF, CT, CF⟩ :=
          ih (dy + 1) (drawColsAux x (y + dy) (c.memory (c.i + dy)) 0 8 c) c' h
        rw [m1, i1] at HT HF CT CF
        have hcell : ∀ d j, dy + 1 ≤ d → j < 8 → x + j < 64 →
            (128 >>> j) &&& (c.memory (c.i + d)) ≠ 0 →
            (drawColsAux x (y + dy) (c.memory (c.i + dy)) 0 8 c).display
                (x + j + (y + d) * 64) =
              c.display (x + j + (y + d) * 64) := by
          intro d j hd hj hxj hbit
          apply hitF
          intro hcol
          have h2 : colHit x (y + d) (c.memory (c.i + d)) 0 8 (x + j + (y + d) * 64) :=
            ⟨j, by omega, by omega, hxj, hbit, rfl⟩
          have := colHit_row_eq x (y + dy) (c.memory (c.i + dy)) (y + d)
            (c.memory (c.i + d)) (x + j + (y + d) * 64) hcol h2
          omega
        have hcolTransfer :
            rowCollide c.memory c.i
              (drawColsAux x (y + dy) (c.memory (c.i + dy)) 0 8 c).display x y (dy + 1) fuel ↔
            rowCollide c.memory c.i c.display x y (dy + 1) fuel := by
          unfold rowCollide colCollide
          refine exists_congr (fun d => ?_)
          constructor <;> rintro ⟨h1, h2, h3, j, j1, j2, j3, j4, j5⟩ <;>
            refine ⟨h1, h2, h3, j, j1, j2, j3, j4, ?_⟩
          · rw [← hcell d j (by omega) (by omega) j3 j4]
            exact j5
          · rw [hcell d j (by omega) (by omega) j3 j4]
            exact j5
        refine ⟨M.trans m1, I.trans i1,
          P.trans (drawColsAux_pc x (y + dy) (c.memory (c.i + dy)) 8 0 c),
          ?_, ?_, ?_, ?_, ?_⟩
        · intro k hk
          exact (VK k hk).trans (vk1 k hk)
        · intro loc hl
          rcases (rowHit_succ c.memory c.i x y dy fuel loc).1 hl with ⟨h32x, hcol⟩ | htail
          · have hnt : ¬ rowHit c.memory c.i x y (dy + 1) fuel loc := by
              rintro ⟨d, d1, d2, d3, dcol⟩
              have := colHit_row_eq x (y + dy) (c.memory (c.i + dy)) (y + d)
                (c.memory (c.i + d)) loc hcol dcol
              omega
            rw [HF loc hnt]
            exact hitT loc hcol
          · rw [HT loc htail]
            obtain ⟨d, d1, d2, d3, j, j1, j2, j3, j4, j5⟩ := htail
            subst j5
            rw [hcell d j (by omega) (by omega) j3 j4]
        · intro loc hnl
          have hnt : ¬ rowHit c.memory c.i x y (dy + 1) fuel loc :=
            fun ht => hnl ((rowHit_succ c.memory c.i x y dy fuel loc).2 (Or.inr ht))
          have hnh : ¬ colHit x (y + dy) (c.memory (c.i + dy)) 0 8 loc :=
            fun hcx => hnl ((rowHit_succ c.memory c.i x y dy fuel loc).2
              (Or.inl ⟨by omega, hcx⟩))
          rw [HF loc hnt]
          exact hitF loc hnh
        · intro hcol
          rcases (rowCollide_succ c.memory c.i c.display x y dy fuel).1 hcol with
            ⟨h32x, hcx⟩ | htail
          · have h115 := colT hcx
            by_cases ht2 : rowCollide c.memory c.i
                (drawColsAux x (y + dy) (c.memory (c.i + dy)) 0 8 c).display x y (dy + 1) fuel
            · exact CT ht2
            · rw [CF ht2]
              exact h115
          · exact CT (hcolTransfer.2 htail)
        · intro hncol
          have hnhead : ¬ colCollide c.display x (y + dy) (c.memory (c.i + dy)) 0 8 :=
            fun hcx => hncol ((rowCollide_succ c.memory c.i c.display x y dy fuel).2
              (Or.inl ⟨by omega, hcx⟩))
          have hntail : ¬ rowCollide c.memory c.i
              (drawColsAux x (y + dy) (c.memory (c.i + dy)) 0 8 c).display x y (dy + 1) fuel :=
            fun ht => hncol ((rowCollide_succ c.memory c.i c.display x y dy fuel).2
              (Or.inr (hcolTransfer.1 ht)))
          rw [CF hntail]
          exact colF hnhead

/-- Display cell `(px, py)` is a set bit of the sprite drawn by `DXYN` with
origin `(x, y)` and height `n`: the sprite byte for its row, read from
`memory[I + (py - y)]`, has bit `px - x` set. -/
def sprHit (c : Chip8) (x y n px py : Nat) : Prop :=
  x ≤ px ∧ px < x + 8 ∧ y ≤ py ∧ py < y + n ∧
  (128 >>> (px - x)) &&& (c.memory (c.i + (py - y))) ≠ 0

theorem rowHit_iff_sprHit (c : Chip8) (x y n px py : Nat)
    (hpx : px < 64) (hpy : py < 32) :
    rowHit c.memory c.i x y 0 n (px + py * 64) ↔ sprHit c x y n px py := by
  constructor
  · rintro ⟨d, -, d2, d3, j, -, j2, j3, j4, j5⟩
    have hpq : px = x + j ∧ py = y + d := by omega
    obtain ⟨e1, e2⟩ := hpq
    subst e1
    subst e2
    have g1 : x + j - x = j := by omega
    have g2 : y + d - y = d := by omega
    rw [sprHit, g1, g2]
    exact ⟨by omega, by omega, by omega, by omega, j4⟩
  · rintro ⟨h1, h2, h3, h4, h5⟩
    refine ⟨py - y, by omega, by omega, by omega, px - x, by omega, by omega, by omega,
      h5, by omega⟩

theorem rowCollide_iff_spr (c : Chip8) (x y n : Nat) :
    rowCollide c.memory c.i c.display x y 0 n ↔
      ∃ px, px < 64 ∧ ∃ py, py < 32 ∧ sprHit c x y n px py ∧
        c.display (px + py * 64) = 255 := by
  constructor
  · rintro ⟨d, -, d2, d3, j, -, j2, j3, j4, j5⟩
    refine ⟨x + j, by omega, y + d, by omega, ?_, j5⟩
    have g1 : x + j - x = j := by omega
    have g2 : y + d - y = d := by omega
    rw [sprHit, g1, g2]
    exact ⟨by omega, by omega, by omega, by omega, j4⟩
  · rintro ⟨px, hpx, py, hpy, ⟨h1, h2, h3, h4, h5⟩, hdisp⟩
    refine ⟨py - y, by omega, by omega, by omega, px - x, by omega, by omega, by omega,
      h5, ?_⟩
    have e : x + (px - x) + (y + (py - y)) * 64 = px + py * 64 := by omega
    rw [e]
    exact hdisp

/-- Any cell hit by some sprite row lies inside the 64×32 row-major grid. -/
theorem rowHit_loc_lt (mem : Nat → Nat) (iv x y dy fuel loc : Nat)
    (h : rowHit mem iv x y dy fuel loc) : loc < 2048 := by
  obtain ⟨d, -, -, d3, j, -, -, j3, -, j5⟩ := h
  omega

/-- Claim C3 as amended: `DXYN` XOR-blits the `N`-byte sprite at
`memory[I..I+N]` onto the display with the origin wrapped modulo 64×32 and
the sprite clipped (not wrapped) at the right/bottom edges, and VF is set to
1 exactly when some previously-lit (255) pixel is toggled off, else 0 — with
the caveat the counterexample forces: the origin registers are read after VF
is cleared, so when the coordinate register is VF itself (X = F or Y = F) the
origin coordinate used is 0, not the old `VF mod 64/32`. Here stated for
coordinate registers other than VF: the origin is exactly
`(Vx mod 64, Vy mod 32)`; everything outside the blitted cells — other
display cells, memory, PC, the non-flag registers — is untouched. -/
theorem c3_amended (r vx vy n : Nat) (c c' : Chip8)
    (hvx : vx ≠ 15) (hvy : vy ≠ 15)
    (h : execOp r (OpCodes.DrawVxVyN vx vy n) c = some c') :
    (∀ px py, px < 64 → py < 32 →
      (sprHit c (c.v vx % 64) (c.v vy % 32) n px py →
        c'.display (px + py * 64) = c.display (px + py * 64) ^^^ 255) ∧
      (¬ sprHit c (c.v vx % 64) (c.v vy % 32) n px py →
        c'.display (px + py * 64) = c.display (px + py * 64))) ∧
    (c'.v 15 = 1 ↔ ∃ px, px < 64 ∧ ∃ py, py < 32 ∧
      sprHit c (c.v vx % 64) (c.v vy % 32) n px py ∧ c.display (px + py * 64) = 255) ∧
    (c'.v 15 = 0 ∨ c'.v 15 = 1) ∧
    (∀ k, k ≠ 15 → c'.v k = c.v k) ∧
    c'.memory = c.memory ∧ c'.pc = c.pc ∧
    (∀ loc, 2048 ≤ loc → c'.display loc = c.display loc) := by
  have hx : upd c.v 15 0 vx = c.v vx := upd_other c.v 15 0 vx hvx
  have hy : upd c.v 15 0 vy = c.v vy := upd_other c.v 15 0 vy hvy
  have h' : drawRowsAux (c.v vx % 64) (c.v vy % 32) 0 n { c with v := upd c.v 15 0 }
      = some c' := by
    rw [← hx, ← hy]
    exact h
  obtain ⟨M, I, P, VK, HT, HF, CT, CF⟩ :=
    drawRowsAux_spec (c.v vx % 64) (c.v vy % 32) n 0 { c with v := upd c.v 15 0 } c' h'
  have hv15 : upd c.v 15 0 15 = 0 := upd_same c.v 15 0
  refine ⟨?_, ?_, ?_, ?_, M, P, ?_⟩
  · intro px py hpx hpy
    constructor
    · intro hs
      exact HT (px + py * 64)
        ((rowHit_iff_sprHit { c with v := upd c.v 15 0 } (c.v vx % 64) (c.v vy % 32) n
          px py hpx hpy).2 hs)
    · intro hs
      exact HF (px + py * 64)
        (fun hr => hs ((rowHit_iff_sprHit { c with v := upd c.v 15 0 } (c.v vx % 64)
          (c.v vy % 32) n px py hpx hpy).1 hr))
  · constructor
    · intro h1
      by_cases hcx : rowCollide c.memory c.i c.display (c.v vx % 64) (c.v vy % 32) 0 n
      · exact (rowCollide_iff_spr { c with v := upd c.v 15 0 } (c.v vx % 64)
          (c.v vy % 32) n).1 hcx
      · exact absurd (hv15.symm.trans ((CF hcx).symm.trans h1)) (by decide)
    · intro hex
      exact CT ((rowCollide_iff_spr { c with v := upd c.v 15 0 } (c.v vx % 64)
        (c.v vy % 32) n).2 hex)
  · by_cases hcx : rowCollide c.memory c.i c.display (c.v vx % 64) (c.v vy % 32) 0 n
    · exact Or.inr (CT hcx)
    · refine Or.inl ?_
      rw [CF hcx]
      exact hv15
  · intro k hk
    exact (VK k hk).trans (upd_other c.v 15 0 k hk)
  · intro loc hloc
    exact HF loc (fun hr => by
      have := rowHit_loc_lt c.memory c.i (c.v vx % 64) (c.v vy % 32) 0 n loc hr
      omega)

/-- A machine about to draw the one-byte sprite `0xFF` (at `I = 40`) with
`V0 = 60`, `V1 = 0`: origin (60, 0) on an empty display. -/
def drawC0 : Chip8 :=
  { baseChip with
    v := fun k => if k = 0 then 60 else 0
    i := 40
    memory := fun a => if a = 40 then 255 else 0 }

/-- Result of `DRW V0, V1, 1` on `drawC0`. -/
def drawC1 : Chip8 := (execOp 0 (OpCodes.DrawVxVyN 0 1 1) drawC0).getD drawC0

/-- Witness for C3 (amended) at the spec's own example: an `0xFF` 8×1 sprite
drawn at (60, 0) on an empty display lights exactly the four cells
x = 60..63 of row 0 (clipping at x = 64) and leaves VF = 0. -/
theorem c3_amended_witness :
    execOp 0 (OpCodes.DrawVxVyN 0 1 1) drawC0 = some drawC1 ∧
    drawC1.display 60 = drawC0.display 60 ^^^ 255 ∧
    drawC1.display 59 = drawC0.display 59 ∧
    drawC1.display 64 = drawC0.display 64 ∧
    drawC1.display 60 = 255 ∧ drawC1.display 61 = 255 ∧
    drawC1.display 62 = 255 ∧ drawC1.display 63 = 255 ∧
    drawC1.display 59 = 0 ∧ drawC1.display 64 = 0 ∧
    drawC1.v 15 = 0 := by
  have H := c3_amended 0 0 1 1 drawC0 drawC1 (by decide) (by decide) rfl
  refine ⟨rfl, ?_, ?_, ?_, by decide, by decide, by decide, by decide, by decide,
    by decide, by decide⟩
  · exact (H.1 60 0 (by decide) (by decide)).1 (by unfold sprHit; decide)
  · exact (H.1 59 0 (by decide) (by decide)).2 (by unfold sprHit; decide)
  · exact (H.1 0 1 (by decide) (by decide)).2 (by unfold sprHit; decide)

/-- A machine whose sprite X register is VF itself (`V15 = 32`), with a
single-pixel sprite byte `0x80` at `I = 40`. -/
def drawCF : Chip8 :=
  { baseChip with
    v := fun k => if k = 15 then 32 else 0
    i := 40
    memory := fun a => if a = 40 then 0x80 else 0 }

/-- Result of `DRW VF, V1, 1` on `drawCF`. -/
def drawCF1 : Chip8 := (execOp 0 (OpCodes.DrawVxVyN 15 1 1) drawCF).getD drawCF

/-- Counterexample to C3 as stated: drawing with X = F and `VF = 32` does not
blit at origin `(Vx mod 64, Vy mod 32) = (32, 0)` — the code clears VF before
reading the coordinate registers, so the pixel lands at x = 0, not x = 32. -/
theorem c3_cex :
    execOp 0 (OpCodes.DrawVxVyN 15 1 1) drawCF = some drawCF1 ∧
    drawCF.v 15 % 64 = 32 ∧ drawCF.v 1 % 32 = 0 ∧
    drawCF1.display 32 = 0 ∧ drawCF1.display 0 = 255 :=
  ⟨rfl, by decide, by decide, by decide, by decide⟩

end Flake
